import Mathlib

/-!
# Verification of the PlantSeg interactive segmentation core

Shallow embedding of the PlantSeg repository's data-processing,
segmentation and asynchronous-dispatch layers, together with theorems
settling the specification claims about them.

Arrays are modelled as a shape (list of dimension sizes) with row-major
flat data; machine floats are modelled as exact rationals; numpy calls
that raise on degenerate inputs (`np.min` on an empty array, `int()` on a
non-numeric string) are modelled with `Option`/`Except`.  External
collaborators that the sources call but do not define (the `elf` graph
solvers, `shift_affinities`) are modelled at their interface boundary, as
the specification prescribes.
-/

namespace PlantSeg

/-- A dense n-dimensional array: the shape together with the row-major
flat data buffer. -/
structure NDArray (α : Type) where
  shape : List Nat
  data : List α
deriving DecidableEq, Repr

/-- `ndarray.ndim`: the number of axes. -/
def NDArray.ndim {α : Type} (d : NDArray α) : Nat := d.shape.length

/-- `np.min` over an array's values; numpy raises on an empty array,
modelled by `none`. -/
def npMin : List ℚ → Option ℚ
  | [] => none
  | x :: xs => some (xs.foldl min x)

/-- `np.max` over an array's values; numpy raises on an empty array,
modelled by `none`. -/
def npMax : List ℚ → Option ℚ
  | [] => none
  | x :: xs => some (xs.foldl max x)

/-- Embedding of `dataprocessing.fix_input_shape`: 2d data is reshaped to
`(1, H, W)`, 3d data is returned unchanged, 4d data is reduced to its
first element along the leading axis, anything else raises a
`RuntimeError`. -/
def fix_input_shape {α : Type} (data : NDArray α) : Except String (NDArray α) :=
  if data.ndim = 2 then
    .ok { shape := 1 :: data.shape, data := data.data }
  else if data.ndim = 3 then
    .ok data
  else if data.ndim = 4 then
    .ok { shape := data.shape.tail, data := data.data.take data.shape.tail.prod }
  else
    .error ("Expected input data to be 2d, 3d or 4d, but got " ++ toString data.ndim ++ "d input")

/-- The epsilon added to the divisor in `normalize_01` (`1e-12`). -/
def normEps : ℚ := 1 / 10 ^ 12

/-- Embedding of `dataprocessing.normalize_01`:
`(data - np.min(data)) / (np.max(data) - np.min(data) + 1e-12)`,
elementwise; `none` models numpy raising on an empty array. -/
def normalize_01 (data : NDArray ℚ) : Option (NDArray ℚ) :=
  match npMin data.data, npMax data.data with
  | some mn, some mx =>
      some { shape := data.shape,
             data := data.data.map fun x => (x - mn) / (mx - mn + normEps) }
  | _, _ => none

/-- `np.unique`: the distinct values of the buffer in increasing order. -/
def npUnique (l : List ℕ) : List ℕ := l.dedup.insertionSort (· ≤ ·)

/-- `np.argmax`: index of the first occurrence of the maximum value (the
caller below guards the empty case, where numpy raises, with `Option`). -/
def npArgmax (l : List ℕ) : ℕ := l.findIdx fun x => x = l.foldr max 0

/-- Embedding of `labelprocessing.set_background_to_value`.  The source
performs `segmentation_image += 1`, an in-place mutation of the caller's
buffer, before computing the most frequent value and replacing it by
`value` in a fresh `np.where` output.  The mutation is made explicit by
returning the pair (state of the caller's buffer after the call, returned
array); `none` models `np.argmax` raising on an empty input. -/
def set_background_to_value (segmentation_image : List ℕ) (value : ℕ) :
    Option (List ℕ × List ℕ) :=
  let buf := segmentation_image.map (· + 1)
  let idx := npUnique buf
  let counts := idx.map fun v => buf.count v
  if counts = [] then none
  else
    let bg_idx := idx.getD (npArgmax counts) 0
    some (buf, buf.map fun x => if x = bg_idx then value else x)

/-! ## Python string operations used by `viewer.widget.utils` -/

/-- Python `haystack.find(needle)`: the lowest index at which `needle`
occurs as a substring, `none` standing for the `-1` of a miss. -/
def pyFind (needle : List Char) : List Char → Option Nat
  | [] => if needle.isPrefixOf ([] : List Char) then some 0 else none
  | c :: rest =>
      if needle.isPrefixOf (c :: rest) then some 0
      else (pyFind needle rest).map (· + 1)

/-- The value of a digit string, read in base 10. -/
def digitsVal (l : List Char) : Nat :=
  l.foldl (fun a c => a * 10 + (c.toNat - 48)) 0

/-- Python `int(s)`: parses an optionally negated run of digits; a
`ValueError` (empty or non-numeric string) is modelled by `none`. -/
def pyInt : List Char → Option Int
  | [] => none
  | '-' :: rest =>
      if rest ≠ [] ∧ rest.all Char.isDigit then some (-(digitsVal rest : Int)) else none
  | l =>
      if l.all Char.isDigit then some (digitsVal l : Int) else none

/-- Python `s.split(sep)` for a one-character separator. -/
def splitSep (sep : Char) : List Char → List (List Char)
  | [] => [[]]
  | c :: rest =>
      let r := splitSep sep rest
      if c = sep then [] :: r
      else
        match r with
        | [] => [[c]]
        | h :: t => (c :: h) :: t

/-- Python `sep.join(parts)` for a one-character separator. -/
def joinSep (sep : Char) : List (List Char) → List Char
  | [] => []
  | [x] => x
  | x :: y :: t => x ++ sep :: joinSep sep (y :: t)

/-- Embedding of `viewer.widget.utils._find_version`.  When `new_suffix`
occurs in `old_suffix` the text after its first occurrence is read as a
bracketed version counter (`int(current_version[1:-1])`, which raises for
malformed remainders — modelled by `none`) and incremented; otherwise the
suffix is appended fresh with an empty version string. -/
def find_version (old_suffix new_suffix : List Char) :
    Option (List Char × List Char) :=
  match pyFind new_suffix old_suffix with
  | some s_idx =>
      let v_idx := s_idx + new_suffix.length
      let old_suffix' := old_suffix.take v_idx
      let current_version := old_suffix.drop v_idx
      let parsed : Option Int :=
        if current_version = [] then some 0
        else pyInt ((current_version.drop 1).dropLast)
      parsed.map fun v =>
        (old_suffix', ('[' :: (toString (v + 1)).data) ++ [']'])
  | none => some (old_suffix ++ '_' :: new_suffix, [])

/-- Embedding of `viewer.widget.utils.build_nice_name`: if `base` has no
underscore the suffix is appended fresh; otherwise the part after the last
underscore is treated as the old suffix and versioned via
`find_version`. -/
def build_nice_name (base new_suffix : List Char) : Option (List Char) :=
  if pyFind ['_'] base = none then some (base ++ '_' :: new_suffix)
  else
    let parts := splitSep '_' base
    let old_suffix := parts.getLastD []
    let base_without_suffix := joinSep '_' parts.dropLast
    (find_version old_suffix new_suffix).map fun p =>
      base_without_suffix ++ '_' :: (p.1 ++ p.2)

/-- `build_nice_name` on `String` values. -/
def build_nice_nameS (base new_suffix : String) : Option String :=
  (build_nice_name base.data new_suffix.data).map List.asString

/-! ## The segmentation functional layer (`segmentation.gasp` family) -/

/-- The `run_GASP_kwargs` configuration dict built by `gasp`. -/
structure RunGaspKwargs where
  linkage_criteria : String
  add_cannot_link_constraints : Bool
  use_efficient_implementations : Bool
deriving DecidableEq, Repr

/-- Modelled from the spec: the collaborators `gasp` calls that are not
among the provided sources — `shift_affinities` (from
`plantseg.segmentation.functional.utils`) and the GASP solver and size
filter of the external `elf` library.  The spec treats them as black-box
array transforms specified at their interface boundary:
`shift_affinities` realigns the affinity channels along the axis-aligned
offsets and keeps the array shape; the GASP solver turns an affinity
array of shape `(3, D, H, W)` into a label volume of shape `(D, H, W)`
(a node-to-label assignment broadcast over the volume); the size filter
merges away small segments and keeps the segmentation's shape. -/
structure SegBackend where
  shift_affinities : NDArray ℚ → List (List ℕ) → NDArray ℚ
  shift_affinities_shape : ∀ a offs, (shift_affinities a offs).shape = a.shape
  run_gasp : List (List ℕ) → Option (NDArray ℕ) → RunGaspKwargs → ℕ → ℚ → NDArray ℚ → NDArray ℕ
  run_gasp_shape : ∀ offs sp kw nt b a, (run_gasp offs sp kw nt b a).shape = a.shape.tail
  apply_size_filter : NDArray ℕ → NDArray ℚ → ℕ → NDArray ℕ
  apply_size_filter_shape : ∀ s b m, (apply_size_filter s b m).shape = s.shape

/-- The computational body of `segmentation.gasp`, once the superpixel
check has passed: the 2d → unit-depth-3d promotion of the boundary map,
the stacking of three affinity channels, the shift, the affinity
inversion `1 - a`, the GASP run, and the optional size filter.  The
source never squeezes the result back to 2d. -/
def gaspRun (elf : SegBackend) (boundary_pmaps : NDArray ℚ)
    (superpixel_gen : Option (NDArray ℕ)) (gasp_linkage_criteria : String)
    (beta : ℚ) (post_minsize : ℕ) (n_threads : ℕ) : NDArray ℕ :=
  let boundary_pmaps :=
    if boundary_pmaps.ndim = 2 then
      { shape := 1 :: boundary_pmaps.shape, data := boundary_pmaps.data }
    else boundary_pmaps
  let run_GASP_kwargs : RunGaspKwargs := ⟨gasp_linkage_criteria, false, false⟩
  let offsets : List (List ℕ) := [[0, 0, 1], [0, 1, 0], [1, 0, 0]]
  let affinities : NDArray ℚ :=
    { shape := 3 :: boundary_pmaps.shape,
      data := boundary_pmaps.data ++ boundary_pmaps.data ++ boundary_pmaps.data }
  let affinities := elf.shift_affinities affinities offsets
  let affinities := { shape := affinities.shape, data := affinities.data.map fun a => 1 - a }
  let segmentation := elf.run_gasp offsets superpixel_gen run_GASP_kwargs n_threads beta affinities
  if 0 < post_minsize then elf.apply_size_filter segmentation boundary_pmaps post_minsize
  else segmentation

/-- Embedding of `segmentation.gasp`.  The external collaborators are
supplied through `elf : SegBackend`; the shape assertion against the
superpixels and their 2d → unit-depth-3d promotion mirror the source, and
the rest of the body is `gaspRun`. -/
def gasp (elf : SegBackend) (boundary_pmaps : NDArray ℚ)
    (superpixels : Option (NDArray ℕ)) (gasp_linkage_criteria : String)
    (beta : ℚ) (post_minsize : ℕ) (n_threads : ℕ) :
    Except String (NDArray ℕ) :=
  let checked : Except String (Option (NDArray ℕ)) :=
    match superpixels with
    | some sp =>
        if boundary_pmaps.shape = sp.shape then
          .ok (some (if sp.ndim = 2 then { shape := 1 :: sp.shape, data := sp.data } else sp))
        else
          .error "assert boundary_pmaps.shape == superpixels.shape"
    | none => .ok none
  checked.map fun superpixel_gen =>
    gaspRun elf boundary_pmaps superpixel_gen gasp_linkage_criteria beta post_minsize n_threads

/-- Embedding of `segmentation.mutex_ws`: delegates to `gasp` with
`gasp_linkage_criteria = 'mutex_watershed'`. -/
def mutex_ws (elf : SegBackend) (boundary_pmaps : NDArray ℚ)
    (superpixels : Option (NDArray ℕ)) (beta : ℚ) (post_minsize : ℕ)
    (n_threads : ℕ) : Except String (NDArray ℕ) :=
  gasp elf boundary_pmaps superpixels "mutex_watershed" beta post_minsize n_threads

/-- A concrete backend satisfying the interface contracts: the shift is
the identity, the solver assigns label `0` everywhere, the size filter
returns its input.  Used to evaluate `gasp` on closed inputs. -/
def trivialBackend : SegBackend where
  shift_affinities := fun a _ => a
  shift_affinities_shape := fun _ _ => rfl
  run_gasp := fun _ _ _ _ _ a =>
    { shape := a.shape.tail, data := List.replicate a.shape.tail.prod 0 }
  run_gasp_shape := fun _ _ _ _ _ _ => rfl
  apply_size_filter := fun s _ _ => s
  apply_size_filter_shape := fun _ _ _ => rfl

/-! ## Lifted multicut from a nuclei segmentation: the cost scaling -/

/-- Classification of a lifted region pair against the nuclei
segmentation: both regions overlap the same nucleus, or they conflict. -/
inductive OverlapKind where
  | sameNucleus
  | conflicting
deriving DecidableEq, Repr

/-- Modelled from the spec: `elf`'s `lifted_problem_from_segmentation`
(external collaborator) derives lifted edges from region overlap with the
nuclei segmentation and assigns `same_segment_cost` to region pairs
overlapping the same nucleus and `different_segment_cost` to conflicting
pairs; the overlap threshold and graph depth steer which pairs appear and
are carried opaquely here (the pair classification is an input). -/
def lifted_problem_from_segmentation (pairs : List (ℕ × ℕ × OverlapKind))
    (overlap_threshold : ℚ) (graph_depth : ℕ)
    (same_segment_cost different_segment_cost : ℚ) :
    List ((ℕ × ℕ) × ℚ) :=
  pairs.map fun p =>
    ((p.1, p.2.1),
      match p.2.2 with
      | .sameNucleus => same_segment_cost
      | .conflicting => different_segment_cost)

/-- The lifted-edge cost computation of
`segmentation.lifted_multicut_from_nuclei_segmentation`: `costs` are the
base edge costs returned by `compute_mc_costs`;
`max_cost = np.abs(np.max(costs))` (`none` models numpy raising on an
empty cost array), and the lifted problem is built with
`overlap_threshold = 0.2`, `graph_depth = 4`,
`same_segment_cost = 5 * max_cost` and
`different_segment_cost = -5 * max_cost`. -/
def nuclei_seg_lifted_costs (costs : List ℚ)
    (pairs : List (ℕ × ℕ × OverlapKind)) : Option (List ((ℕ × ℕ) × ℚ)) :=
  (npMax costs).map fun m =>
    let max_cost := |m|
    lifted_problem_from_segmentation pairs (2 / 10) 4 (5 * max_cost) (-(5 * max_cost))

/-! ## The asynchronous execution wrapper (`viewer.widget.utils`) -/

/-- Identity of a recorded function: the dispatched user function (by
name) or the `identity` placeholder recorded when `skip_dag` is set. -/
inductive FuncId where
  | identity
  | named (name : String)
deriving DecidableEq, Repr

/-- A DAG Recorder step: one `dag_manager.add_step` record. -/
structure DagStep where
  func : FuncId
  input_keys : List String
  output_key : String
  static_params : List (String × ℚ)
  step_name : String
deriving DecidableEq, Repr

/-- The `concurrent.futures.Future` returned by
`start_threading_process`: pending until `set_result` or
`set_exception` is called on it. -/
inductive FutureState (ρ : Type) where
  | pending
  | done (r : ρ)
  | failed (e : String)
deriving DecidableEq, Repr

/-- Observable actions of one dispatch, in execution order: a
`show_info` notification, the one-off execution of the dispatched
function by the worker thread, a `dag_manager.add_step` append, and the
`future.set_result` call. -/
inductive AsyncEvent where
  | info (msg : String)
  | execute
  | dagStep (s : DagStep)
  | setRes
deriving DecidableEq, Repr

/-- The state visible to the caller of one dispatch: the ordered event
trace and the returned future. -/
structure AsyncState (ρ κ : Type) where
  events : List AsyncEvent
  future : FutureState (ρ × κ × String)
deriving DecidableEq, Repr

/-- Embedding of the `on_done` completion handler defined inside
`start_threading_process`: notify that computation completed, record one
DAG step (for the dispatched function, or `identity` when `skip_dag` is
set), then fulfil the future with `(result, layer_kwarg, layer_type)`,
in that order. -/
def on_done {ρ κ : Type} (func : FuncId) (skip_dag : Bool)
    (input_keys : List String) (out_name : String)
    (statics_kwargs : List (String × ℚ)) (step_name : String)
    (layer_kwarg : κ) (layer_type : String)
    (result : ρ) (s : AsyncState ρ κ) : AsyncState ρ κ :=
  let _func := if skip_dag = false then func else FuncId.identity
  { events := s.events ++
      [ .info ("Napari - PlantSeg info: widget " ++ step_name ++ " computation complete"),
        .dagStep ⟨_func, input_keys, out_name, statics_kwargs, step_name⟩,
        .setRes ],
    future := .done (result, layer_kwarg, layer_type) }

/-- A napari `thread_worker`: the one-shot computation together with the
handlers connected to its `returned` and `errored` signals. -/
structure Worker (ρ κ : Type) where
  run : Except String ρ
  returned_handlers : List (ρ → AsyncState ρ κ → AsyncState ρ κ)
  errored_handlers : List (String → AsyncState ρ κ → AsyncState ρ κ)

/-- Fire every handler connected to a signal, in connection order. -/
def fireAll {α ρ κ : Type} (hs : List (α → AsyncState ρ κ → AsyncState ρ κ))
    (a : α) (s : AsyncState ρ κ) : AsyncState ρ κ :=
  hs.foldl (fun s h => h a s) s

/-- `worker.start()`: the worker thread runs the dispatched function
exactly once; on a normal return the `returned` handlers fire with the
result, on a raised exception the `errored` handlers fire with the
error. -/
def Worker.start {ρ κ : Type} (w : Worker ρ κ) (s : AsyncState ρ κ) : AsyncState ρ κ :=
  let s := { s with events := s.events ++ [.execute] }
  match w.run with
  | .ok r => fireAll w.returned_handlers r s
  | .error e => fireAll w.errored_handlers e s

/-- Embedding of `viewer.widget.utils.start_threading_process`: builds a
worker for the dispatched function (`funcRun` is the outcome its one
execution produces), connects `on_done` to the worker's `returned`
signal only — the source connects nothing to `errored` — and lets the
worker run.  The resulting `AsyncState` is the trace after the
asynchronous execution has finished (the started notification, issued on
the caller's thread right after dispatch, precedes the worker's
completion events). -/
def start_threading_process {ρ κ : Type} (func : FuncId) (funcRun : Except String ρ)
    (out_name : String) (input_keys : List String)
    (statics_kwargs : List (String × ℚ)) (layer_kwarg : κ)
    (layer_type : String) (step_name : String) (skip_dag : Bool) :
    AsyncState ρ κ :=
  let worker : Worker ρ κ :=
    { run := funcRun,
      returned_handlers :=
        [on_done func skip_dag input_keys out_name statics_kwargs step_name layer_kwarg layer_type],
      errored_handlers := [] }
  let s : AsyncState ρ κ :=
    { events := [.info ("Napari - PlantSeg info: widget " ++ step_name ++ " computation started")],
      future := .pending }
  worker.start s

/-! ## The lifted-multicut widget (`viewer.widget.segmentation`) -/

/-- A napari layer as seen by `widget_lifted_multicut`'s `nuclei`
parameter: an `Image` (probability map), a `Labels` (discrete
segmentation), or any other layer type. -/
inductive NapariLayer where
  | image (name : String)
  | labels (name : String)
  | other (name : String)
deriving DecidableEq, Repr

/-- The layer's display name. -/
def NapariLayer.name : NapariLayer → String
  | .image n => n
  | .labels n => n
  | .other n => n

/-- The call `widget_lifted_multicut` hands to
`start_threading_process`: which function it dispatches, the keys of its
runtime arguments, and the bookkeeping names. -/
structure DispatchCall where
  func : FuncId
  runtime_keys : List String
  out_name : String
  input_keys : List String
  step_name : String
  layer_type : String
deriving DecidableEq, Repr

/-- The success path of `widget_lifted_multicut` after the `isinstance`
dispatch chose the function `lmc` and the runtime key `extra_key`: build
the output name with `build_nice_name` (whose `ValueError` on malformed
version counters propagates) and call `start_threading_process` with the
runtime arguments `boundary_pmaps`, the nuclei data and `superpixels`. -/
def widgetLmcDispatch (image_name : String) (nuclei : NapariLayer)
    (labels_name : String) (lmc : FuncId) (extra_key : String) :
    Except String DispatchCall :=
  match build_nice_nameS image_name "LiftedMultiCut" with
  | some out_name =>
      .ok { func := lmc,
            runtime_keys := ["boundary_pmaps", extra_key, "superpixels"],
            out_name := out_name,
            input_keys := [image_name, nuclei.name, labels_name],
            step_name := "Lifted Multicut Clustering",
            layer_type := "labels" }
  | none => .error "ValueError: invalid literal for int()"

/-- Embedding of `viewer.widget.segmentation.widget_lifted_multicut`'s
synchronous part.  The `isinstance` dispatch on the nuclei layer happens
first: an `Image` routes to `lifted_multicut_from_nuclei_pmaps` with
runtime key `nuclei_pmaps`, a `Labels` routes to
`lifted_multicut_from_nuclei_segmentation` with runtime key `nuclei_seg`,
and any other layer type raises `ValueError` before any name is built or
any computation dispatched. -/
def widget_lifted_multicut (image_name : String) (nuclei : NapariLayer)
    (labels_name : String) : Except String DispatchCall :=
  match nuclei with
  | .image _ =>
      widgetLmcDispatch image_name nuclei labels_name
        (.named "lifted_multicut_from_nuclei_pmaps") "nuclei_pmaps"
  | .labels _ =>
      widgetLmcDispatch image_name nuclei labels_name
        (.named "lifted_multicut_from_nuclei_segmentation") "nuclei_seg"
  | .other _ =>
      .error (nuclei.name ++ " must be either an image or a labels layer")

/-! ## Helper lemmas -/

theorem foldl_min_le_foldl_max (xs : List ℚ) :
    ∀ a b : ℚ, a ≤ b → xs.foldl min a ≤ xs.foldl max b := by
  induction xs with
  | nil => intro a b h; simpa using h
  | cons y ys ih =>
      intro a b h
      simp only [List.foldl_cons]
      exact ih _ _ (le_trans (min_le_left a y) (le_trans h (le_max_left b y)))

theorem foldl_min_const (c : ℚ) (xs : List ℚ) (h : ∀ x ∈ xs, x = c) :
    xs.foldl min c = c := by
  induction xs with
  | nil => rfl
  | cons y ys ih =>
      have hy : y = c := h y (by simp)
      simp only [List.foldl_cons, hy, min_self]
      exact ih fun x hx => h x (by simp [hx])

theorem foldl_max_const (c : ℚ) (xs : List ℚ) (h : ∀ x ∈ xs, x = c) :
    xs.foldl max c = c := by
  induction xs with
  | nil => rfl
  | cons y ys ih =>
      have hy : y = c := h y (by simp)
      simp only [List.foldl_cons, hy, max_self]
      exact ih fun x hx => h x (by simp [hx])

theorem splitSep_ne_nil (sep : Char) (l : List Char) : splitSep sep l ≠ [] := by
  cases l with
  | nil => simp [splitSep]
  | cons c rest =>
      simp only [splitSep]
      split
      · simp
      · split <;> simp

theorem joinSep_splitSep (sep : Char) (l : List Char) :
    joinSep sep (splitSep sep l) = l := by
  induction l with
  | cons c rest ih =>
      simp only [splitSep]
      split
      · rename_i hc
        subst hc
        rcases h : splitSep c rest with _ | ⟨p, ps⟩
        · exact absurd h (splitSep_ne_nil c rest)
        · rw [h] at ih
          simpa [joinSep] using ih
      · rcases h : splitSep sep rest with _ | ⟨p, ps⟩
        · exact absurd h (splitSep_ne_nil sep rest)
        · rw [h] at ih
          cases ps with
          | nil => simpa [joinSep] using ih
          | cons q qs => simpa [joinSep] using ih
  | nil => rfl

theorem joinSep_append_singleton (sep : Char) (xs : List (List Char)) (x : List Char)
    (h : xs ≠ []) : joinSep sep (xs ++ [x]) = joinSep sep xs ++ sep :: x := by
  induction xs with
  | nil => exact absurd rfl h
  | cons y ys ih =>
      cases ys with
      | nil => simp [joinSep]
      | cons z zs =>
          have h2 := ih (by simp)
          simp only [List.cons_append, joinSep, List.append_eq] at h2 ⊢
          rw [h2]
          simp

theorem pyFind_mem (needle : List Char) (c : Char) (hc : needle = [c]) :
    ∀ l : List Char, pyFind needle l ≠ none → c ∈ l := by
  intro l
  induction l with
  | nil =>
      intro h
      exfalso
      apply h
      simp [pyFind, hc, List.isPrefixOf]
  | cons d rest ih =>
      intro h
      by_cases hp : needle.isPrefixOf (d :: rest)
      · subst hc
        have : d = c := by
          cases List.isPrefixOf_iff_prefix.mp hp with
          | intro w hw => simp at hw; simp [hw.1]
        simp [this]
      · simp only [pyFind, hp, if_neg, ite_false] at h
        have : pyFind needle rest ≠ none := by
          intro hnone
          apply h
          simp [hnone]
        exact List.mem_cons_of_mem d (ih this)

theorem splitSep_length_ge_two (sep : Char) (l : List Char) (h : sep ∈ l) :
    2 ≤ (splitSep sep l).length := by
  induction l with
  | nil => simp at h
  | cons c rest ih =>
      simp only [splitSep]
      split
      · have h1 : (splitSep sep rest).length ≥ 1 :=
          List.length_pos.mpr (splitSep_ne_nil sep rest)
        simpa using h1
      · rename_i hc
        have hmem : sep ∈ rest := by
          rcases List.mem_cons.mp h with h' | h'
          · exact absurd h'.symm hc
          · exact h'
        rcases hs : splitSep sep rest with _ | ⟨p, ps⟩
        · exact absurd hs (splitSep_ne_nil sep rest)
        · have := ih hmem
          rw [hs] at this
          simpa using this

/-! ## Claim theorems -/

/-- Claim C10: `fix_input_shape` returns a 3-dimensional array for every
input of dimension 2, 3, or 4 — a 2d array of shape `(H, W)` is reshaped
to `(1, H, W)`, a 3d array is returned unchanged, a 4d array is reduced
to its first element along the leading axis — and raises a
`RuntimeError` for every input of any other dimensionality. -/
theorem fix_input_shape_spec {α : Type} (d : NDArray α) :
    (d.ndim = 2 → ∃ r, fix_input_shape d = .ok r ∧
        r.shape = 1 :: d.shape ∧ r.data = d.data ∧ r.ndim = 3) ∧
    (d.ndim = 3 → fix_input_shape d = .ok d) ∧
    (d.ndim = 4 → ∃ r, fix_input_shape d = .ok r ∧
        r.shape = d.shape.tail ∧ r.data = d.data.take d.shape.tail.prod ∧ r.ndim = 3) ∧
    (d.ndim ≠ 2 → d.ndim ≠ 3 → d.ndim ≠ 4 →
      fix_input_shape d =
        .error ("Expected input data to be 2d, 3d or 4d, but got " ++
          toString d.ndim ++ "d input")) := by
  refine ⟨?_, ?_, ?_, ?_⟩
  · intro h2
    refine ⟨⟨1 :: d.shape, d.data⟩, ?_, rfl, rfl, ?_⟩
    · simp [fix_input_shape, h2]
    · simp only [NDArray.ndim] at h2 ⊢
      simp [h2]
  · intro h3
    have h2 : d.ndim ≠ 2 := by omega
    simp [fix_input_shape, h2, h3]
  · intro h4
    have h2 : d.ndim ≠ 2 := by omega
    have h3 : d.ndim ≠ 3 := by omega
    refine ⟨⟨d.shape.tail, d.data.take d.shape.tail.prod⟩, ?_, rfl, rfl, ?_⟩
    · simp [fix_input_shape, h2, h3, h4]
    · simp only [NDArray.ndim] at h4 ⊢
      simp only [List.length_tail, h4]
  · intro h2 h3 h4
    simp [fix_input_shape, h2, h3, h4]

/-- Witness for C10: `fix_input_shape` on a concrete 2d array. -/
theorem fix_input_shape_spec_witness :
    ∃ r, fix_input_shape (⟨[2, 3], [0, 1, 2, 3, 4, 5]⟩ : NDArray ℚ) = .ok r ∧
      r.shape = 1 :: [2, 3] ∧ r.data = [0, 1, 2, 3, 4, 5] ∧ r.ndim = 3 :=
  (fix_input_shape_spec (⟨[2, 3], [0, 1, 2, 3, 4, 5]⟩ : NDArray ℚ)).1 (by decide)

/-- Claim C9: `normalize_01` never fails on a zero-variance input: for
every (nonempty) array the divisor is the range epsilon-stabilised by
adding `1e-12`, hence strictly positive, so the division is always
defined; and on a constant array the function returns an all-zero array
of the same shape instead of raising. -/
theorem normalize_01_epsilon_safe (d : NDArray ℚ) (hne : d.data ≠ []) :
    ∃ mn mx, npMin d.data = some mn ∧ npMax d.data = some mx ∧
      mn ≤ mx ∧ 0 < mx - mn + normEps ∧
      normalize_01 d =
        some ⟨d.shape, d.data.map fun x => (x - mn) / (mx - mn + normEps)⟩ ∧
      ((∀ x ∈ d.data, ∀ y ∈ d.data, x = y) →
        normalize_01 d = some ⟨d.shape, d.data.map fun _ => 0⟩) := by
  rcases hd : d.data with _ | ⟨c, cs⟩
  · exact absurd hd hne
  refine ⟨cs.foldl min c, cs.foldl max c, by simp [npMin, hd], by simp [npMax, hd], ?_, ?_, ?_, ?_⟩
  · exact foldl_min_le_foldl_max cs c c le_rfl
  · have h1 : cs.foldl min c ≤ cs.foldl max c := foldl_min_le_foldl_max cs c c le_rfl
    have h2 : (0 : ℚ) < normEps := by norm_num [normEps]
    linarith
  · simp [normalize_01, npMin, npMax, hd]
  · intro hconst
    have hall : ∀ x ∈ cs, x = c := fun x hx =>
      hconst x (List.mem_cons_of_mem c hx) c (by simp)
    have hmn : cs.foldl min c = c := foldl_min_const c cs hall
    have hmx : cs.foldl max c = c := foldl_max_const c cs hall
    simp only [normalize_01, hd, npMin, npMax, hmn, hmx, Option.some.injEq,
      NDArray.mk.injEq, true_and]
    refine List.map_congr_left ?_
    intro x hx
    have hxc : x = c := hconst x hx c (by simp)
    simp [hxc]

/-- Witness for C9: `normalize_01` on the constant array `[2, 2, 2]`
returns the all-zero array of the same shape. -/
theorem normalize_01_epsilon_safe_witness :
    normalize_01 ⟨[3], [2, 2, 2]⟩ = some ⟨[3], [0, 0, 0]⟩ := by
  obtain ⟨mn, mx, hmn, hmx, hle, hpos, heq, hconst⟩ :=
    normalize_01_epsilon_safe ⟨[3], [2, 2, 2]⟩ (by decide)
  exact (hconst (by decide)).trans (by decide)

/-- Claim C4 counterexample: `set_background_to_value` mutates its input
buffer.  On the input `[0, 0, 1]` the caller's buffer holds `[1, 1, 2]`
after the call (every element incremented in place by the source's
`segmentation_image += 1`), not the original values. -/
theorem set_background_to_value_mutates_input :
    set_background_to_value [0, 0, 1] 0 = some ([1, 1, 2], [0, 0, 2]) ∧
    ([1, 1, 2] : List ℕ) ≠ [0, 0, 1] := by decide

/-- Claim C4 as amended: `set_background_to_value` mutates its input
array — after the call the caller's buffer holds the original values each
incremented by 1 — while the returned array is a fresh `np.where` output
of the same length. -/
theorem set_background_to_value_buffer_effect (l : List ℕ) (v : ℕ) (h : l ≠ []) :
    ∃ res, set_background_to_value l v = some (l.map (· + 1), res) ∧
      res.length = l.length := by
  have hbuf : l.map (· + 1) ≠ [] := fun hc => h (List.map_eq_nil_iff.mp hc)
  have huniq : npUnique (l.map (· + 1)) ≠ [] := by
    intro hc
    have hper := List.perm_insertionSort (· ≤ ·) ((l.map (· + 1)).dedup)
    rw [npUnique] at hc
    rw [hc] at hper
    exact hbuf ((List.dedup_eq_nil _).mp hper.nil_eq.symm)
  have hcounts : ((npUnique (l.map (· + 1))).map fun u => (l.map (· + 1)).count u) ≠ [] :=
    fun hc => huniq (List.map_eq_nil_iff.mp hc)
  refine ⟨(l.map (· + 1)).map fun x =>
      if x = (npUnique (l.map (· + 1))).getD
          (npArgmax ((npUnique (l.map (· + 1))).map fun u => (l.map (· + 1)).count u)) 0
      then v else x, ?_, ?_⟩
  · simp only [set_background_to_value]
    rw [if_neg hcounts]
  · simp

/-- Witness for the amended C4: the buffer effect at a concrete input. -/
theorem set_background_to_value_buffer_effect_witness :
    ∃ res, set_background_to_value [0, 0, 1] 0 = some ([0, 0, 1].map (· + 1), res) ∧
      res.length = ([0, 0, 1] : List ℕ).length :=
  set_background_to_value_buffer_effect [0, 0, 1] 0 (by decide)

/-- Claim C2 counterexample: for a base name that does not end with the
suffix but whose last underscore-segment contains it, `build_nice_name`
does not append the suffix fresh.  On base `"raw_dtWS12"` with suffix
`"dtWS"` the remainder `"12"` is sliced by `[1:-1]` to `""`, and
`int('')` raises a `ValueError` (`none`), so the result is not
`"raw_dtWS12_dtWS"`; on base `"raw_dtWSx1y"` the call even returns the
versioned name `"raw_dtWS[2]"`. -/
theorem build_nice_name_fresh_counterexample :
    (List.isSuffixOf "dtWS".data "raw_dtWS12".data = false) ∧
    build_nice_nameS "raw_dtWS12" "dtWS" = none ∧
    build_nice_nameS "raw_dtWS12" "dtWS" ≠ some "raw_dtWS12_dtWS" ∧
    (List.isSuffixOf "dtWS".data "raw_dtWSx1y".data = false) ∧
    build_nice_nameS "raw_dtWSx1y" "dtWS" = some "raw_dtWS[2]" := by decide

/-- Claim C2 as amended: `build_nice_name "raw_dtWS" "dtWS"` returns
`"raw_dtWS[1]"` and applying it again to `"raw_dtWS[1]"` returns
`"raw_dtWS[2]"`; and for every base name with no underscore, or whose
last underscore-segment does not contain the suffix as a substring, the
result is the base name with `"_"` and the suffix appended fresh.  (The
original claim's condition, "does not already end with the suffix", is
wrong when the last segment contains the suffix internally: there the
code versions or raises instead of appending.) -/
theorem build_nice_name_versioning :
    build_nice_nameS "raw_dtWS" "dtWS" = some "raw_dtWS[1]" ∧
    build_nice_nameS "raw_dtWS[1]" "dtWS" = some "raw_dtWS[2]" ∧
    ∀ base suffix : List Char,
      (pyFind ['_'] base = none ∨
        pyFind suffix ((splitSep '_' base).getLastD []) = none) →
      build_nice_name base suffix = some (base ++ '_' :: suffix) := by
  refine ⟨by decide, by decide, ?_⟩
  intro base suffix h
  by_cases hU : pyFind ['_'] base = none
  · simp [build_nice_name, hU]
  · have hS : pyFind suffix ((splitSep '_' base).getLastD []) = none := by
      rcases h with h | h
      · exact absurd h hU
      · exact h
    have hmem : '_' ∈ base := pyFind_mem ['_'] '_' rfl base hU
    have hlen : 2 ≤ (splitSep '_' base).length := splitSep_length_ge_two '_' base hmem
    rcases List.eq_nil_or_concat (splitSep '_' base) with hnil | ⟨L, b, hLb⟩
    · exact absurd hnil (splitSep_ne_nil '_' base)
    · rw [List.concat_eq_append] at hLb
      have hL : L ≠ [] := by
        intro hLnil
        rw [hLb, hLnil] at hlen
        simp at hlen
      have hlast : (splitSep '_' base).getLastD [] = b := by
        rw [hLb]
        simp [List.getLastD_concat]
      have hdrop : (splitSep '_' base).dropLast = L := by
        rw [hLb]
        exact List.dropLast_concat
      have hjoin : joinSep '_' L ++ '_' :: b = base := by
        have := joinSep_splitSep '_' base
        rw [hLb] at this
        rw [← this, joinSep_append_singleton '_' L b hL]
      simp only [build_nice_name, hU, if_neg, ite_false, hlast, hdrop]
      rw [hlast] at hS
      simp only [find_version, hS, Option.map_some]
      rw [← hjoin]
      simp

/-- Witness for the amended C2: the fresh-append branch at a concrete
base whose last segment does not contain the suffix. -/
theorem build_nice_name_versioning_witness :
    build_nice_name "a_b".data "c".data = some ("a_b".data ++ '_' :: "c".data) :=
  build_nice_name_versioning.2.2 "a_b".data "c".data (Or.inr (by decide))

/-- The shape of the `gaspRun` body: always the promoted boundary shape,
for any backend satisfying the interface contracts. -/
theorem gaspRun_shape (elf : SegBackend) (bp : NDArray ℚ) (spg : Option (NDArray ℕ))
    (crit : String) (beta : ℚ) (m n : ℕ) :
    (gaspRun elf bp spg crit beta m n).shape =
      if bp.ndim = 2 then 1 :: bp.shape else bp.shape := by
  unfold gaspRun
  by_cases hm : 0 < m
  · simp only [if_pos hm, elf.apply_size_filter_shape, elf.run_gasp_shape,
      elf.shift_affinities_shape]
    split <;> rfl
  · simp only [if_neg hm, elf.run_gasp_shape, elf.shift_affinities_shape]
    split <;> rfl

/-- Claim C3 counterexample: `gasp` on a concrete 2-dimensional boundary
map (with a backend whose solver and size filter respect the interface
shape contracts) returns a volume of unit-depth 3d shape `(1, 2, 2)`,
not of the original 2-dimensional shape `(2, 2)`. -/
theorem gasp_2d_shape_not_restored :
    gasp trivialBackend ⟨[2, 2], [1 / 2, 1 / 2, 1 / 2, 1 / 2]⟩ none "average" (6 / 10) 100 6 =
      .ok ⟨[1, 2, 2], [0, 0, 0, 0]⟩ ∧
    ([1, 2, 2] : List ℕ) ≠ [2, 2] := by
  constructor
  · rfl
  · decide

/-- Claim C3 as amended: for every 2-dimensional boundary map (with an
optional superpixel map of the same shape) and every backend satisfying
the interface shape contracts, `gasp` promotes the inputs to a
unit-depth 3d volume before processing and succeeds, but the result keeps
the promoted unit-depth 3d shape `(1, H, W)`; the original 2-dimensional
shape is not restored. -/
theorem gasp_2d_promotes_but_keeps_unit_depth (elf : SegBackend) (b : NDArray ℚ)
    (sp : Option (NDArray ℕ)) (crit : String) (beta : ℚ) (m n : ℕ)
    (hb : b.ndim = 2)
    (hsp : sp = none ∨ ∃ s, sp = some s ∧ s.shape = b.shape) :
    ∃ seg, gasp elf b sp crit beta m n = .ok seg ∧
      seg.shape = 1 :: b.shape ∧ seg.ndim = 3 ∧ seg.shape ≠ b.shape := by
  have hshape : ∀ spg, (gaspRun elf b spg crit beta m n).shape = 1 :: b.shape := by
    intro spg
    rw [gaspRun_shape, if_pos hb]
  have hndim : ∀ spg, (gaspRun elf b spg crit beta m n).ndim = 3 := by
    intro spg
    simp only [NDArray.ndim, hshape spg, List.length_cons]
    simp only [NDArray.ndim] at hb
    omega
  have hne : ∀ spg, (gaspRun elf b spg crit beta m n).shape ≠ b.shape := by
    intro spg heq
    rw [hshape spg] at heq
    have := congrArg List.length heq
    simp only [List.length_cons] at this
    omega
  rcases hsp with hnone | ⟨s, hsome, hs⟩
  · subst hnone
    exact ⟨_, rfl, hshape none, hndim none, hne none⟩
  · subst hsome
    refine ⟨gaspRun elf b (some (if s.ndim = 2 then ⟨1 :: s.shape, s.data⟩ else s))
      crit beta m n, ?_, hshape _, hndim _, hne _⟩
    simp only [gasp]
    rw [if_pos hs.symm]
    rfl

/-- Witness for the amended C3: the unit-depth promotion at a concrete
2x2 boundary map with a concrete superpixel map. -/
theorem gasp_2d_promotes_but_keeps_unit_depth_witness :
    ∃ seg, gasp trivialBackend ⟨[2, 2], [1 / 2, 1 / 2, 1 / 2, 1 / 2]⟩
        (some ⟨[2, 2], [1, 1, 2, 2]⟩) "average" (6 / 10) 100 6 = .ok seg ∧
      seg.shape = 1 :: [2, 2] ∧ seg.ndim = 3 ∧ seg.shape ≠ [2, 2] :=
  gasp_2d_promotes_but_keeps_unit_depth trivialBackend
    ⟨[2, 2], [1 / 2, 1 / 2, 1 / 2, 1 / 2]⟩ (some ⟨[2, 2], [1, 1, 2, 2]⟩)
    "average" (6 / 10) 100 6 (by decide)
    (Or.inr ⟨⟨[2, 2], [1, 1, 2, 2]⟩, rfl, rfl⟩)

/-- Claim C7: `mutex_ws` is `gasp` with the linkage criterion fixed to
`'mutex_watershed'` — for all boundary maps, superpixel maps and
parameters `beta`, `post_minsize`, `n_threads` (and any backend), the two
return the same result. -/
theorem mutex_ws_eq_gasp_mutex_watershed (elf : SegBackend) (b : NDArray ℚ)
    (sp : Option (NDArray ℕ)) (beta : ℚ) (m n : ℕ) :
    mutex_ws elf b sp beta m n = gasp elf b sp "mutex_watershed" beta m n := rfl

/-- Claim C6 counterexample: in
`lifted_multicut_from_nuclei_segmentation` a region pair overlapping the
same nucleus receives the lifted cost `+5 * |np.max(costs)|` — a
non-negative value, not the strongly negative one the claim states — and
the scale is `5 * |max(costs)|`, not 5 times the maximum magnitude: with
base costs `[-3, -1]` the assigned magnitude is `5`, not `15`. -/
theorem nuclei_lifted_cost_counterexample :
    nuclei_seg_lifted_costs [1] [(0, 1, .sameNucleus)] = some [((0, 1), 5)] ∧
    ¬ ((5 : ℚ) < 0) ∧
    nuclei_seg_lifted_costs [-3, -1] [(0, 1, .sameNucleus)] = some [((0, 1), 5)] ∧
    (5 : ℚ) ≠ 5 * max |(-3 : ℚ)| |(-1 : ℚ)| := by
  have e1 : nuclei_seg_lifted_costs [1] [(0, 1, .sameNucleus)] = some [((0, 1), 5)] := by
    unfold nuclei_seg_lifted_costs
    rw [show npMax [1] = some 1 from rfl]
    simp [lifted_problem_from_segmentation, abs_one]
  have hmax : npMax [-3, -1] = some (-1) := by
    show some (max (-3 : ℚ) (-1)) = some (-1)
    rw [max_eq_right (by norm_num : (-3 : ℚ) ≤ -1)]
  have e2 : nuclei_seg_lifted_costs [-3, -1] [(0, 1, .sameNucleus)] = some [((0, 1), 5)] := by
    unfold nuclei_seg_lifted_costs
    rw [hmax]
    simp [lifted_problem_from_segmentation, abs_neg, abs_one]
  have h3 : |(-3 : ℚ)| = 3 := by
    rw [abs_of_nonpos (by norm_num)]
    norm_num
  have h1 : |(-1 : ℚ)| = 1 := by
    rw [abs_of_nonpos (by norm_num)]
    norm_num
  refine ⟨e1, by norm_num, e2, ?_⟩
  rw [h3, h1, max_eq_left (by norm_num : (1 : ℚ) ≤ 3)]
  norm_num

/-- Claim C6 as amended: for every nonempty base edge cost list and
every classified lifted pair list, region pairs overlapping the same
nucleus receive the lifted cost `+5 * |np.max(costs)|` (non-negative,
attractive in the solver's sign convention) and conflicting pairs receive
`-5 * |np.max(costs)|` (non-positive); the common magnitude is five times
the absolute value of the maximum signed base cost, not of the maximum
base cost magnitude. -/
theorem nuclei_seg_lifted_costs_scaled (costs : List ℚ)
    (pairs : List (ℕ × ℕ × OverlapKind)) (h : costs ≠ []) :
    ∃ m, npMax costs = some m ∧
      nuclei_seg_lifted_costs costs pairs =
        some (pairs.map fun p =>
          ((p.1, p.2.1),
            match p.2.2 with
            | .sameNucleus => 5 * |m|
            | .conflicting => -(5 * |m|))) ∧
      0 ≤ 5 * |m| ∧ -(5 * |m|) ≤ 0 := by
  rcases hc : costs with _ | ⟨c, cs⟩
  · exact absurd hc h
  refine ⟨cs.foldl max c, by simp [npMax], ?_, by positivity, ?_⟩
  · simp [nuclei_seg_lifted_costs, npMax, lifted_problem_from_segmentation]
  · have : (0 : ℚ) ≤ 5 * |cs.foldl max c| := by positivity
    linarith

/-- Witness for the amended C6: the cost assignment at the concrete base
costs `[-3, -1]` and one pair of each classification. -/
theorem nuclei_seg_lifted_costs_scaled_witness :
    ∃ m, npMax [-3, -1] = some m ∧
      nuclei_seg_lifted_costs [-3, -1] [(0, 1, .sameNucleus), (0, 2, .conflicting)] =
        some ([(0, 1, OverlapKind.sameNucleus), (0, 2, OverlapKind.conflicting)].map fun p =>
          ((p.1, p.2.1),
            match p.2.2 with
            | .sameNucleus => 5 * |m|
            | .conflicting => -(5 * |m|))) ∧
      0 ≤ 5 * |m| ∧ -(5 * |m|) ≤ 0 :=
  nuclei_seg_lifted_costs_scaled [-3, -1]
    [(0, 1, .sameNucleus), (0, 2, .conflicting)] (by decide)

/-- Claim C5: for every dispatched function that completes successfully
(with `skip_dag` left at its default `false`, as at every call site in
the sources), the completion handler of `start_threading_process` first
notifies the caller, then appends exactly one DAG step recording the
invocation — function identity, input keys, static parameters, output
key, step name — and then fulfils the returned future with the triple
`(result, layer_kwarg, layer_type)`, in that order. -/
theorem start_threading_process_success_order {ρ κ : Type} (func : FuncId) (r : ρ)
    (out_name : String) (input_keys : List String) (statics : List (String × ℚ))
    (layer_kwarg : κ) (layer_type step_name : String) (skip_dag : Bool)
    (h : skip_dag = false) :
    start_threading_process func (.ok r) out_name input_keys statics layer_kwarg
        layer_type step_name skip_dag =
      { events :=
          [ .info ("Napari - PlantSeg info: widget " ++ step_name ++ " computation started"),
            .execute,
            .info ("Napari - PlantSeg info: widget " ++ step_name ++ " computation complete"),
            .dagStep ⟨func, input_keys, out_name, statics, step_name⟩,
            .setRes ],
        future := .done (r, layer_kwarg, layer_type) } := by
  subst h
  rfl

/-- Witness for C5: the completion trace at concrete arguments. -/
theorem start_threading_process_success_order_witness :
    start_threading_process (FuncId.named "gasp") (Except.ok (7 : ℚ)) "raw_GASP"
        ["raw"] [("beta", 1 / 2)] "kwargs" "labels" "GASP Clustering" false =
      { events :=
          [ .info ("Napari - PlantSeg info: widget " ++ "GASP Clustering" ++ " computation started"),
            .execute,
            .info ("Napari - PlantSeg info: widget " ++ "GASP Clustering" ++ " computation complete"),
            .dagStep ⟨FuncId.named "gasp", ["raw"], "raw_GASP", [("beta", 1 / 2)], "GASP Clustering"⟩,
            .setRes ],
        future := .done ((7 : ℚ), "kwargs", "labels") } :=
  start_threading_process_success_order (FuncId.named "gasp") (7 : ℚ) "raw_GASP"
    ["raw"] [("beta", 1 / 2)] "kwargs" "labels" "GASP Clustering" false rfl

/-- Claim C1 counterexample: when the dispatched function raises, the
exception does not propagate to the returned future.  At a concrete
failing dispatch the final future state is `pending` — the source
connects `on_done` only to the worker's `returned` signal and nothing to
`errored`, so neither `set_result` nor `set_exception` ever runs — rather
than completing with the error as the claim states. -/
theorem start_threading_process_error_counterexample :
    (start_threading_process (FuncId.named "gasp")
        (Except.error "RuntimeError" : Except String ℚ) "raw_GASP" ["raw"] []
        ("kwargs" : String) "labels" "GASP Clustering" false).future =
      FutureState.pending ∧
    (start_threading_process (FuncId.named "gasp")
        (Except.error "RuntimeError" : Except String ℚ) "raw_GASP" ["raw"] []
        ("kwargs" : String) "labels" "GASP Clustering" false).future ≠
      FutureState.failed "RuntimeError" := by
  constructor
  · rfl
  · intro hc
    simp [start_threading_process, Worker.start, fireAll] at hc

/-- Claim C1 as amended: an exception raised inside a dispatched
operation does **not** propagate to the returned future.  For every
failing dispatch the trace ends after the single execution of the
function — so it is not retried and no DAG step is recorded — and the
future remains pending forever: neither a failure result nor any result
is ever set. -/
theorem start_threading_process_error_never_completes {ρ κ : Type} (func : FuncId)
    (e : String) (out_name : String) (input_keys : List String)
    (statics : List (String × ℚ)) (layer_kwarg : κ) (layer_type step_name : String)
    (skip_dag : Bool) :
    start_threading_process func (Except.error e : Except String ρ) out_name
        input_keys statics layer_kwarg layer_type step_name skip_dag =
      { events :=
          [ .info ("Napari - PlantSeg info: widget " ++ step_name ++ " computation started"),
            .execute ],
        future := .pending } := rfl

/-- Claim C8: `widget_lifted_multicut` dispatches on the nuclei layer's
type — an `Image` layer routes to `lifted_multicut_from_nuclei_pmaps`
(runtime key `nuclei_pmaps`), a `Labels` layer routes to
`lifted_multicut_from_nuclei_segmentation` (runtime key `nuclei_seg`),
and any other layer type raises a `ValueError` synchronously, with no
dispatch record produced. -/
theorem widget_lifted_multicut_routing (image_name labels_name nuclei_name out_name : String)
    (h : build_nice_nameS image_name "LiftedMultiCut" = some out_name) :
    (widget_lifted_multicut image_name (.image nuclei_name) labels_name =
      .ok ⟨.named "lifted_multicut_from_nuclei_pmaps",
        ["boundary_pmaps", "nuclei_pmaps", "superpixels"], out_name,
        [image_name, nuclei_name, labels_name], "Lifted Multicut Clustering", "labels"⟩) ∧
    (widget_lifted_multicut image_name (.labels nuclei_name) labels_name =
      .ok ⟨.named "lifted_multicut_from_nuclei_segmentation",
        ["boundary_pmaps", "nuclei_seg", "superpixels"], out_name,
        [image_name, nuclei_name, labels_name], "Lifted Multicut Clustering", "labels"⟩) ∧
    (∀ nm, widget_lifted_multicut image_name (.other nm) labels_name =
      .error (nm ++ " must be either an image or a labels layer")) := by
  refine ⟨?_, ?_, ?_⟩
  · simp [widget_lifted_multicut, widgetLmcDispatch, NapariLayer.name, h]
  · simp [widget_lifted_multicut, widgetLmcDispatch, NapariLayer.name, h]
  · intro nm
    simp [widget_lifted_multicut, NapariLayer.name]

/-- Witness for C8: the routing at concrete layer names. -/
theorem widget_lifted_multicut_routing_witness :
    (widget_lifted_multicut "raw" (.image "nuclei") "seg" =
      .ok ⟨.named "lifted_multicut_from_nuclei_pmaps",
        ["boundary_pmaps", "nuclei_pmaps", "superpixels"], "raw_LiftedMultiCut",
        ["raw", "nuclei", "seg"], "Lifted Multicut Clustering", "labels"⟩) ∧
    (widget_lifted_multicut "raw" (.labels "nuclei") "seg" =
      .ok ⟨.named "lifted_multicut_from_nuclei_segmentation",
        ["boundary_pmaps", "nuclei_seg", "superpixels"], "raw_LiftedMultiCut",
        ["raw", "nuclei", "seg"], "Lifted Multicut Clustering", "labels"⟩) ∧
    (∀ nm, widget_lifted_multicut "raw" (.other nm) "seg" =
      .error (nm ++ " must be either an image or a labels layer")) :=
  widget_lifted_multicut_routing "raw" "seg" "nuclei" "raw_LiftedMultiCut" (by decide)

end PlantSeg
